import Mathlib

/-
Verification development for the Zato quickstart bootstrap orchestrator.

Shallow embedding of:
  * src/code/zato-cli/src/zato/cli/quickstart.py   (Quickstart.execute)
  * src/code/zato-common/src/zato/common/odb/model.py (Cluster, Server)

Strings are modelled as lists of characters.  Python's decimal rendering
(`str`/format), `str.split`, `int(...)` and SQL `LIKE` matching are embedded
as executable functions; the sequential body of `Quickstart.execute` is
embedded as a list of steps, each of which either succeeds (performing its
filesystem or database effects) or raises, with the run stopping at the
first raised exception as in the source's single try/except block.
-/

set_option maxRecDepth 4000

abbrev Chars := List Char

/-- Decimal digit character for a value below ten (values ten and above do
not occur; the table defaults to '9'). -/
def digitChar (n : Nat) : Char :=
  match n with
  | 0 => '0' | 1 => '1' | 2 => '2' | 3 => '3' | 4 => '4'
  | 5 => '5' | 6 => '6' | 7 => '7' | 8 => '8' | _ => '9'

/-- Fuel-driven decimal rendering accumulator (most significant digit first). -/
def natToDigitsAux : Nat → Nat → Chars → Chars
  | 0, _, acc => acc
  | f + 1, n, acc =>
    if n < 10 then digitChar n :: acc
    else natToDigitsAux f (n / 10) (digitChar (n % 10) :: acc)

/-- Decimal rendering of a natural number, as produced by Python's `str`
and string formatting. -/
def natToDigits (n : Nat) : Chars := natToDigitsAux (n + 1) n []

/-- Decimal rendering of an integer (Python's `str.format` of an int). -/
def intRepr : Int → Chars
  | .ofNat n => natToDigits n
  | .negSucc n => '-' :: natToDigits (n + 1)

def isDigitChar (c : Char) : Bool := 48 ≤ c.toNat && c.toNat ≤ 57

/-- Left-to-right decimal accumulator used by the `int(...)` embedding. -/
def parseNatAux : Nat → Chars → Option Nat
  | acc, [] => some acc
  | acc, c :: r =>
    if isDigitChar c then parseNatAux (acc * 10 + (c.toNat - 48)) r else none

/-- All-digit parse; empty input is a parse error, as for Python `int("")`. -/
def parseNat (s : Chars) : Option Nat :=
  match s with
  | [] => none
  | _ => parseNatAux 0 s

/-- Embedding of Python's `int(string)` on the strings arising here: an
optional leading minus sign followed by decimal digits.  (Python also strips
whitespace and accepts a plus sign; no caller in the source produces such
input.)  `none` models the `ValueError` raised on malformed input. -/
def pythonInt (s : Chars) : Option Int :=
  match s with
  | [] => none
  | c :: r =>
    if c = '-' then (parseNat r).map (fun n => -(n : Int))
    else (parseNat (c :: r)).map (fun n => (n : Int))

/-- Embedding of Python's `str.split` on a one-character separator:
`"a#b".split("#") == ["a", "b"]`, `"ab".split("#") == ["ab"]`. -/
def splitOnChar (sep : Char) : Chars → List Chars
  | [] => [[]]
  | c :: rest =>
    match splitOnChar sep rest with
    | [] => [[]]
    | h :: t => if c = sep then [] :: h :: t else (c :: h) :: t

/-- Fuel-driven SQL `LIKE` matcher: `'%'` matches any run of characters,
`'_'` any single character, anything else itself.  The fuel strictly
exceeds the combined length of pattern and subject, so it never runs out. -/
def likeMatchAux : Nat → Chars → Chars → Bool
  | 0, _, _ => false
  | _ + 1, [], s => s.isEmpty
  | f + 1, p :: ps, s =>
    if p = '%' then
      match s with
      | [] => likeMatchAux f ps []
      | _ :: s' => likeMatchAux f ps s || likeMatchAux f (p :: ps) s'
    else
      match s with
      | [] => false
      | c :: s' =>
        if p = '_' then likeMatchAux f ps s'
        else p = c && likeMatchAux f ps s'

/-- SQL `LIKE` matching, as used by `Cluster.name.like(...)` in the source. -/
def likeMatch (ps s : Chars) : Bool :=
  likeMatchAux (ps.length + s.length + 1) ps s

/-- A persisted `cluster` row (model.py, class Cluster): integer primary key
and globally unique name.  The remaining columns (description, ODB and AMQP
connection parameters, addresses) play no part in any claim and carry no
constraint used here. -/
structure ClusterRow where
  id : Nat
  name : Chars
deriving DecidableEq, Inhabited

/-- A persisted `server` row (model.py, class Server): integer primary key,
name under a table-wide unique constraint, and a nullable foreign key to
`cluster.id` (the `cluster` relationship). -/
structure ServerRow where
  id : Nat
  name : Chars
  clusterId : Option Nat
deriving DecidableEq, Inhabited

inductive PyError
  | valueError
deriving DecidableEq

instance {ε α : Type} [DecidableEq ε] [DecidableEq α] : DecidableEq (Except ε α) := fun a b =>
  match a, b with
  | .ok x, .ok y =>
    if h : x = y then .isTrue (by rw [h]) else .isFalse (fun hc => h (Except.ok.inj hc))
  | .error x, .error y =>
    if h : x = y then .isTrue (by rw [h]) else .isFalse (fun hc => h (Except.error.inj hc))
  | .ok _, .error _ => .isFalse (fun hc => Except.noConfusion hc)
  | .error _, .ok _ => .isFalse (fun hc => Except.noConfusion hc)

/-- The rows returned by
`session.query(Cluster).filter(Cluster.name.like(pre + "-%"))`. -/
def likeCandidates (rows : List ClusterRow) (pre : Chars) : List ClusterRow :=
  rows.filter (fun r => likeMatch (pre ++ ['-', '%']) r.name)

/-- Running maximum by `id`, keeping the earlier row on ties. -/
def maxByIdAux (b : ClusterRow) : List ClusterRow → ClusterRow
  | [] => b
  | c :: rest => maxByIdAux (if b.id < c.id then c else b) rest

/-- The first row of the query ordered by `Cluster.id.desc()`; `none` models
the `IndexError` taken when no row matches. -/
def maxById : List ClusterRow → Option ClusterRow
  | [] => none
  | r :: rest => some (maxByIdAux r rest)

/-- quickstart.py lines 136-148: `next_id` starts at 1; the top row of the
like-query ordered by descending id, if any, has its name split on `"#"`
(the tuple unpacking `_, id = ...` demands exactly two parts) and the
trailing part parsed by `int`, giving `next_id = int(id) + 1`.  A failed
unpack or parse raises `ValueError`. -/
def nextClusterId (rows : List ClusterRow) (pre : Chars) : Except PyError Int :=
  match maxById (likeCandidates rows pre) with
  | none => .ok 1
  | some r =>
    match splitOnChar '#' r.name with
    | [_, idStr] =>
      match pythonInt idStr with
      | some n => .ok (n + 1)
      | none => .error .valueError
    | _ => .error .valueError

/-- The name `pre-#<n>` as formatted at quickstart.py line 150. -/
def mkQsName (pre : Chars) (n : Nat) : Chars :=
  pre ++ '-' :: '#' :: natToDigits n

/-- The new cluster's name: the prefix, `-#`, and the computed next id. -/
def nextClusterName (rows : List ClusterRow) (pre : Chars) : Except PyError Chars :=
  (nextClusterId rows pre).map (fun n => pre ++ '-' :: '#' :: intRepr n)

/-- The fixed quickstart prefix used by `Quickstart.execute`. -/
def quickstartPre : Chars := "ZatoQuickstartCluster".data

/-- The numeric suffix a row's name carries after its `#`, when well formed. -/
def suffixOfName (name : Chars) : Option Int :=
  match splitOnChar '#' name with
  | [_, d] => pythonInt d
  | _ => none

/-- Largest numeric suffix present among the rows of a store. -/
def maxSuffix (rows : List ClusterRow) : Option Int :=
  match rows.filterMap (fun r => suffixOfName r.name) with
  | [] => none
  | x :: xs => some (xs.foldl max x)

/-! ## The sequential body of `Quickstart.execute`

The body is a straight-line sequence inside one `try`.  Each fallible
primitive (database ping, external sub-command, `os.mkdir`, `shutil.copy2`,
the final `session.commit()`) is identified by a `StepId`; an environment
assigns each step an outcome: it succeeds, raises an ordinary exception, or
raises `KeyboardInterrupt`.  A step that succeeds performs its effects
(recorded as events); the run stops at the first raise. -/

/-- An observable effect of the run.  `mkdir` covers both explicit
`os.mkdir` calls and directories created by the invoked sub-commands;
`copy` is a `shutil.copy2` destination; `cryptoGen` a `ca_create_*` call;
`installConfig` a `create_*` configuration installer; `commit` the final
`session.commit()`. -/
inductive Event
  | ping
  | createOdb
  | mkdir (p : Chars)
  | cryptoGen (role : Chars)
  | installConfig (role : Chars)
  | copy (dst : Chars)
  | commit
deriving DecidableEq

inductive StepOutcome
  | ok
  | exn
  | kbint
deriving DecidableEq

inductive StepId
  | getEngine | ping | createOdb
  | mkdirCa | createCa
  | caLbAgent | caServer | caZatoAdmin | caSecServer
  | createSecServer | copySecPriv | copySecCert | copySecChain
  | mkdirLb | createLb | copyLbPriv | copyLbCert | copyLbChain
  | mkdirServer | prepareDirs
  | copySrvPriv | copySrvPub | copySrvCert | copySrvChain | createServerCfg
  | mkdirZatoAdmin | createZatoAdmin
  | copyAdmPriv | copyAdmCert | copyAdmChain
  | getSession | commitStep
deriving DecidableEq

/-- An environment fixes the outcome of every fallible step of one run. -/
abbrev Env := StepId → StepOutcome

def caDir : Chars := "ca".data
def lbDir : Chars := "load-balancer".data
def serverDir : Chars := "server".data
def zatoAdminDir : Chars := "zato-admin".data
def securityServerDir : Chars := "security-server".data
def lbConfigDir : Chars := "load-balancer/config".data
def serverRepoDir : Chars := "server/config/repo".data

/-- quickstart.py lines 60-137, in source order.  Each entry pairs the
step's outcome under the environment with the events it performs when it
succeeds.

Modelled from the spec: the bodies of the invoked sub-commands
(`create_security_server`, `create_lb`, `CreateServer.prepare_directories`,
`create_zato_admin`, the `ca_create_*` family) are repository code not part
of the source slice; per the spec's filesystem layout (§6) and component
design (§4.3), `create_security_server` creates the `security-server/`
directory, `create_lb` the `load-balancer/config/` subtree, and
`prepare_directories` the `server/config/repo/` subtree. -/
def provisioningSteps (env : Env) : List (StepOutcome × List Event) :=
  [ (env .getEngine, []),
    (env .ping, [.ping]),
    (env .createOdb, [.createOdb]),
    (env .mkdirCa, [.mkdir caDir]),
    (env .createCa, [.cryptoGen "ca".data]),
    (env .caLbAgent, [.cryptoGen "lb-agent".data]),
    (env .caServer, [.cryptoGen "server".data]),
    (env .caZatoAdmin, [.cryptoGen "zato-admin".data]),
    (env .caSecServer, [.cryptoGen "security-server".data]),
    (env .createSecServer, [.mkdir securityServerDir, .installConfig securityServerDir]),
    (env .copySecPriv, [.copy "security-server/security-server-priv-key.pem".data]),
    (env .copySecCert, [.copy "security-server/security-server-cert.pem".data]),
    (env .copySecChain, [.copy "security-server/ca-chain.pem".data]),
    (env .mkdirLb, [.mkdir lbDir]),
    (env .createLb, [.mkdir lbConfigDir, .installConfig lbDir]),
    (env .copyLbPriv, [.copy "load-balancer/config/lba-priv-key.pem".data]),
    (env .copyLbCert, [.copy "load-balancer/config/lba-cert.pem".data]),
    (env .copyLbChain, [.copy "load-balancer/config/ca-chain.pem".data]),
    (env .mkdirServer, [.mkdir serverDir]),
    (env .prepareDirs, [.mkdir serverRepoDir]),
    (env .copySrvPriv, [.copy "server/config/repo/zs-priv-key.pem".data]),
    (env .copySrvPub, [.copy "server/config/repo/zs-pub-key.pem".data]),
    (env .copySrvCert, [.copy "server/config/repo/zs-cert.pem".data]),
    (env .copySrvChain, [.copy "server/config/repo/ca-chain.pem".data]),
    (env .createServerCfg, [.installConfig serverDir]),
    (env .mkdirZatoAdmin, [.mkdir zatoAdminDir]),
    (env .createZatoAdmin, [.installConfig zatoAdminDir]),
    (env .copyAdmPriv, [.copy "zato-admin/zato-admin-priv-key.pem".data]),
    (env .copyAdmCert, [.copy "zato-admin/zato-admin-cert.pem".data]),
    (env .copyAdmChain, [.copy "zato-admin/ca-chain.pem".data]),
    (env .getSession, []) ]

inductive Abort
  | exn
  | kbint
deriving DecidableEq

/-- First-failure execution of a step list: the events of the successful
prefix, and the kind of the first raise, if any. -/
def runList : List (StepOutcome × List Event) → List Event × Option Abort
  | [] => ([], none)
  | (o, evs) :: rest =>
    match o with
    | .ok =>
      match runList rest with
      | (evs', ab) => (evs ++ evs', ab)
    | .exn => ([], some .exn)
    | .kbint => ([], some .kbint)

/-- How the run ended: the body completed, an exception was caught by the
`except Exception` clause, or `KeyboardInterrupt` reached its clause. -/
inductive Outcome
  | completed
  | exnCaught
  | kbInterrupt
deriving DecidableEq

/-- The state observable after a run: events performed, the cluster and
server tables, and how the run ended. -/
structure FinalState where
  events : List Event
  clusters : List ClusterRow
  servers : List ServerRow
  outcome : Outcome
deriving DecidableEq

/-- Auto-increment primary key supplied by the row sequence on insert. -/
def nextPk (ids : List Nat) : Nat := ids.foldl max 0 + 1

/-- Name of the new cluster, quickstart.py line 150. -/
def clusterNameOf (nid : Int) : Chars := quickstartPre ++ '-' :: '#' :: intRepr nid

/-- Name of the new server, quickstart.py line 157. -/
def serverNameOf (nid : Int) : Chars :=
  "ZatoQuickstartServer-(cluster-#".data ++ intRepr nid ++ [')']

/-- quickstart.py lines 57-178: the provisioning sequence, then the
`next_id` computation, then `session.add(server); session.commit()` which
persists the new Cluster and Server rows as one unit (the Cluster travels
through the Server's relationship into the same transaction), then the
top-level exception handlers. -/
def executeRun (env : Env) (clusters0 : List ClusterRow) (servers0 : List ServerRow) :
    FinalState :=
  match runList (provisioningSteps env) with
  | (evs, some .exn) => ⟨evs, clusters0, servers0, .exnCaught⟩
  | (evs, some .kbint) => ⟨evs, clusters0, servers0, .kbInterrupt⟩
  | (evs, none) =>
    match nextClusterId clusters0 quickstartPre with
    | .error _ => ⟨evs, clusters0, servers0, .exnCaught⟩
    | .ok nid =>
      match env .commitStep with
      | .ok =>
        let cid := nextPk (clusters0.map (fun r => r.id))
        let c : ClusterRow := ⟨cid, clusterNameOf nid⟩
        let s : ServerRow := ⟨nextPk (servers0.map (fun r => r.id)), serverNameOf nid, some cid⟩
        ⟨evs ++ [.commit], clusters0 ++ [c], servers0 ++ [s], .completed⟩
      | .exn => ⟨evs, clusters0, servers0, .exnCaught⟩
      | .kbint => ⟨evs, clusters0, servers0, .kbInterrupt⟩

/-- quickstart.py lines 172-178: `except Exception` prints and falls
through (the process then exits normally with status 0);
`except KeyboardInterrupt` calls `sys.exit(1)`. -/
def exitCode (f : FinalState) : Nat :=
  match f.outcome with
  | .kbInterrupt => 1
  | _ => 0

/-- Directories created during a run, in creation order. -/
def dirsOf (evs : List Event) : List Chars :=
  evs.filterMap (fun e => match e with | .mkdir p => some p | _ => none)

/-- Files copied into place during a run, in copy order. -/
def filesOf (evs : List Event) : List Chars :=
  evs.filterMap (fun e => match e with | .copy p => some p | _ => none)

/-- The five per-role root directories of the produced layout (§6). -/
def roleDirs : List Chars :=
  [caDir, lbDir, serverDir, zatoAdminDir, securityServerDir]

/-- Is `p` a path strictly inside the server configuration repository? -/
def underServerRepo (p : Chars) : Bool := (serverRepoDir ++ ['/']).isPrefixOf p

/-- Scans an event list checking that every copy whose destination lies
inside `server/config/repo` happens only after that directory was made. -/
def repoCopiesPrepared (seen : Bool) : List Event → Bool
  | [] => true
  | .mkdir p :: rest => repoCopiesPrepared (if p = serverRepoDir then true else seen) rest
  | .copy p :: rest => (!underServerRepo p || seen) && repoCopiesPrepared seen rest
  | _ :: rest => repoCopiesPrepared seen rest

/-- The environment in which every step succeeds. -/
def allOkEnv : Env := fun _ => .ok

/-- Every step succeeds except the copy of the server's private key
(quickstart.py line 118), which raises because its source file is absent. -/
def envSrvCopyFail : Env := fun s => if s = .copySrvPriv then .exn else .ok

/-- Every step succeeds except the final commit of the Cluster and Server
rows, which raises. -/
def envCommitFail : Env := fun s => if s = .commitStep then .exn else .ok

/-- The events of a run in which every provisioning step succeeds, in
source order. -/
def fullEvents : List Event :=
  [.ping, .createOdb, .mkdir caDir, .cryptoGen "ca".data, .cryptoGen "lb-agent".data,
   .cryptoGen "server".data, .cryptoGen "zato-admin".data, .cryptoGen "security-server".data,
   .mkdir securityServerDir, .installConfig securityServerDir,
   .copy "security-server/security-server-priv-key.pem".data,
   .copy "security-server/security-server-cert.pem".data,
   .copy "security-server/ca-chain.pem".data,
   .mkdir lbDir, .mkdir lbConfigDir, .installConfig lbDir,
   .copy "load-balancer/config/lba-priv-key.pem".data,
   .copy "load-balancer/config/lba-cert.pem".data,
   .copy "load-balancer/config/ca-chain.pem".data,
   .mkdir serverDir, .mkdir serverRepoDir,
   .copy "server/config/repo/zs-priv-key.pem".data,
   .copy "server/config/repo/zs-pub-key.pem".data,
   .copy "server/config/repo/zs-cert.pem".data,
   .copy "server/config/repo/ca-chain.pem".data,
   .installConfig serverDir, .mkdir zatoAdminDir, .installConfig zatoAdminDir,
   .copy "zato-admin/zato-admin-priv-key.pem".data,
   .copy "zato-admin/zato-admin-cert.pem".data,
   .copy "zato-admin/ca-chain.pem".data]

/-- The events performed before the failing server-key copy of
`envSrvCopyFail`: everything up to and including the preparation of
`server/config/repo`. -/
def c3Events : List Event := fullEvents.take 21

/-- The outcome the top-level handlers produce for an uncaught raise. -/
def abortOutcome : Abort → Outcome
  | .exn => .exnCaught
  | .kbint => .kbInterrupt

/-- model.py `Cluster`: `id` is the primary key and `name` carries
`unique=True`. -/
def clusterConstraints (clusters : List ClusterRow) : Prop :=
  List.Pairwise (fun a b : ClusterRow => a.id ≠ b.id) clusters ∧
  List.Pairwise (fun a b : ClusterRow => a.name ≠ b.name) clusters

/-- model.py `Server`: `id` is the primary key, `UniqueConstraint('name')`
holds table-wide (it is not scoped by cluster, unlike e.g. `wss_def`), and
`cluster_id` is a *nullable* foreign key into `cluster.id`. -/
def serverConstraints (clusters : List ClusterRow) (servers : List ServerRow) : Prop :=
  List.Pairwise (fun a b : ServerRow => a.id ≠ b.id) servers ∧
  List.Pairwise (fun a b : ServerRow => a.name ≠ b.name) servers ∧
  (∀ s ∈ servers, s.clusterId = none ∨ ∃ c ∈ clusters, s.clusterId = some c.id)

/-- The number of clusters a server belongs to through its foreign key. -/
def belongsCount (clusters : List ClusterRow) (s : ServerRow) : Nat :=
  (clusters.filter (fun c => decide (s.clusterId = some c.id))).length

/-- The value of a digit string under the left-to-right accumulator. -/
def pv (v : Nat) (l : Chars) : Nat :=
  l.foldl (fun a c => a * 10 + (c.toNat - 48)) v

def exceptOk : Except PyError Int → Bool
  | .ok _ => true
  | .error _ => false

/-- The condition under which the body raises `KeyboardInterrupt`:
either some provisioning step does, or they all succeed, the `next_id`
computation succeeds, and the commit raises it. -/
def kbCond (env : Env) (c0 : List ClusterRow) : Prop :=
  (runList (provisioningSteps env)).2 = some .kbint ∨
    ((runList (provisioningSteps env)).2 = none ∧
      exceptOk (nextClusterId c0 quickstartPre) = true ∧ env .commitStep = .kbint)

/-! ## Lemmas: decimal rendering and parsing -/

theorem digitChar_spec (n : Nat) (h : n < 10) :
    isDigitChar (digitChar n) = true ∧ (digitChar n).toNat - 48 = n := by
  interval_cases n <;> exact ⟨rfl, rfl⟩

theorem natToDigitsAux_fuel (f1 f2 n : Nat) (acc : Chars) (h1 : n < f1) (h2 : n < f2) :
    natToDigitsAux f1 n acc = natToDigitsAux f2 n acc := by
  induction f1 generalizing f2 n acc with
  | zero => omega
  | succ g ih =>
    cases f2 with
    | zero => omega
    | succ g2 =>
      simp only [natToDigitsAux]
      by_cases h10 : n < 10
      · simp [h10]
      · have hd : n / 10 < n := Nat.div_lt_self (by omega) (by omega)
        simp only [h10, if_false]
        exact ih g2 (n / 10) _ (by omega) (by omega)

theorem natToDigitsAux_acc (f n : Nat) (acc : Chars) (h : n < f) :
    natToDigitsAux f n acc = natToDigitsAux f n [] ++ acc := by
  induction f generalizing n acc with
  | zero => omega
  | succ g ih =>
    simp only [natToDigitsAux]
    by_cases h10 : n < 10
    · simp [h10]
    · have hd : n / 10 < n := Nat.div_lt_self (by omega) (by omega)
      simp only [h10, if_false]
      rw [ih (n / 10) _ (by omega), ih (n / 10) [digitChar (n % 10)] (by omega)]
      simp

theorem natToDigits_small (n : Nat) (h : n < 10) : natToDigits n = [digitChar n] := by
  unfold natToDigits
  simp only [natToDigitsAux]
  rw [if_pos h]

theorem natToDigits_step (n : Nat) (h : 10 ≤ n) :
    natToDigits n = natToDigits (n / 10) ++ [digitChar (n % 10)] := by
  have hd : n / 10 < n := Nat.div_lt_self (by omega) (by omega)
  have e1 : natToDigits n = natToDigitsAux n (n / 10) [digitChar (n % 10)] := by
    unfold natToDigits
    simp only [natToDigitsAux]
    rw [if_neg (by omega)]
  rw [e1, natToDigitsAux_acc n (n / 10) _ (by omega),
    natToDigitsAux_fuel n (n / 10 + 1) (n / 10) [] (by omega) (by omega)]
  rfl

theorem natToDigits_all_digits (n : Nat) :
    ∀ c ∈ natToDigits n, isDigitChar c = true := by
  induction n using Nat.strong_induction_on with
  | _ n ih =>
    by_cases h10 : n < 10
    · rw [natToDigits_small n h10]
      intro c hc
      rw [List.mem_singleton] at hc
      subst hc
      exact (digitChar_spec n h10).1
    · rw [natToDigits_step n (by omega)]
      intro c hc
      rcases List.mem_append.mp hc with h1 | h2
      · exact ih (n / 10) (Nat.div_lt_self (by omega) (by omega)) c h1
      · rw [List.mem_singleton] at h2
        subst h2
        exact (digitChar_spec (n % 10) (Nat.mod_lt n (by omega))).1

theorem natToDigits_ne_nil (n : Nat) : natToDigits n ≠ [] := by
  by_cases h10 : n < 10
  · rw [natToDigits_small n h10]
    simp
  · rw [natToDigits_step n (by omega)]
    simp

theorem parseNatAux_digits (l : Chars) (h : ∀ c ∈ l, isDigitChar c = true) :
    ∀ v, parseNatAux v l = some (pv v l) := by
  induction l with
  | nil => intro v; rfl
  | cons c r ih =>
    intro v
    have hc : isDigitChar c = true := h c (List.mem_cons_self c r)
    simp only [parseNatAux, hc, if_true]
    rw [ih (fun d hd => h d (List.mem_cons_of_mem c hd))]
    rfl

theorem pv_natToDigits (n : Nat) : pv 0 (natToDigits n) = n := by
  induction n using Nat.strong_induction_on with
  | _ n ih =>
    by_cases h10 : n < 10
    · rw [natToDigits_small n h10]
      simp [pv, (digitChar_spec n h10).2]
    · rw [natToDigits_step n (by omega)]
      unfold pv
      rw [List.foldl_append]
      have hrec : pv 0 (natToDigits (n / 10)) = n / 10 :=
        ih (n / 10) (Nat.div_lt_self (by omega) (by omega))
      unfold pv at hrec
      rw [hrec]
      simp only [List.foldl]
      rw [(digitChar_spec (n % 10) (Nat.mod_lt n (by omega))).2]
      omega

theorem parseNat_natToDigits (n : Nat) : parseNat (natToDigits n) = some n := by
  rcases hN : natToDigits n with _ | ⟨c, r⟩
  · exact absurd hN (natToDigits_ne_nil n)
  · simp only [parseNat]
    rw [← hN, parseNatAux_digits (natToDigits n) (natToDigits_all_digits n) 0,
      pv_natToDigits n]

theorem pythonInt_natToDigits (n : Nat) : pythonInt (natToDigits n) = some (n : Int) := by
  rcases hN : natToDigits n with _ | ⟨c, r⟩
  · exact absurd hN (natToDigits_ne_nil n)
  · have hc : isDigitChar c = true := by
      apply natToDigits_all_digits n
      rw [hN]
      exact List.mem_cons_self c r
    have hne : ¬(c = '-') := by
      intro hcontra
      subst hcontra
      simp [isDigitChar] at hc
    simp only [pythonInt, hne, if_false]
    rw [← hN, parseNat_natToDigits n]
    rfl

/-! ## Lemmas: splitting on a separator -/

theorem splitOnChar_cons (sep c : Char) (rest : Chars) :
    splitOnChar sep (c :: rest) =
      match splitOnChar sep rest with
      | [] => [[]]
      | h :: t => if c = sep then [] :: h :: t else (c :: h) :: t := rfl

theorem splitOnChar_no_sep (sep : Char) (s : Chars) (h : sep ∉ s) :
    splitOnChar sep s = [s] := by
  induction s with
  | nil => rfl
  | cons c r ih =>
    have hcr : sep ∉ r := fun hm => h (List.mem_cons_of_mem c hm)
    have hc : ¬(c = sep) := fun he => h (he ▸ List.mem_cons_self c r)
    rw [splitOnChar_cons, ih hcr]
    simp [hc]

theorem splitOnChar_two (sep : Char) (a b : Chars) (ha : sep ∉ a) (hb : sep ∉ b) :
    splitOnChar sep (a ++ sep :: b) = [a, b] := by
  induction a with
  | nil =>
    rw [List.nil_append, splitOnChar_cons, splitOnChar_no_sep sep b hb]
    simp
  | cons c a' ih =>
    have ha' : sep ∉ a' := fun hm => ha (List.mem_cons_of_mem c hm)
    have hc : ¬(c = sep) := fun he => ha (he ▸ List.mem_cons_self c a')
    rw [List.cons_append, splitOnChar_cons, ih ha']
    simp [hc]

/-! ## Lemmas: LIKE matching -/

theorem likeMatchAux_fuel (f1 f2 : Nat) (ps s : Chars)
    (h1 : ps.length + s.length < f1) (h2 : ps.length + s.length < f2) :
    likeMatchAux f1 ps s = likeMatchAux f2 ps s := by
  induction f1 generalizing f2 ps s with
  | zero => omega
  | succ g ih =>
    cases f2 with
    | zero => omega
    | succ g2 =>
      cases ps with
      | nil => rfl
      | cons p ps' =>
        simp only [List.length_cons] at h1 h2
        cases s with
        | nil =>
          simp only [likeMatchAux]
          by_cases hp : p = '%'
          · rw [if_pos hp, if_pos hp, ih g2 ps' [] (by simp; omega) (by simp; omega)]
          · rw [if_neg hp, if_neg hp]
        | cons c s' =>
          simp only [likeMatchAux, List.length_cons] at *
          by_cases hp : p = '%'
          · rw [if_pos hp, if_pos hp,
              ih g2 ps' (c :: s') (by simp; omega) (by simp; omega),
              ih g2 (p :: ps') s' (by simp; omega) (by simp; omega)]
          · rw [if_neg hp, if_neg hp]
            by_cases hu : p = '_'
            · rw [if_pos hu, if_pos hu, ih g2 ps' s' (by omega) (by omega)]
            · rw [if_neg hu, if_neg hu, ih g2 ps' s' (by omega) (by omega)]

theorem likeMatch_nil (s : Chars) : likeMatch [] s = s.isEmpty := rfl

theorem likeMatch_cons_nil (p : Char) (ps : Chars) :
    likeMatch (p :: ps) [] = if p = '%' then likeMatch ps [] else false := by
  have key : likeMatch (p :: ps) [] =
      if p = '%' then likeMatchAux ((p :: ps).length + ([] : Chars).length) ps []
      else false := rfl
  rw [key,
    likeMatchAux_fuel ((p :: ps).length + ([] : Chars).length)
      (ps.length + ([] : Chars).length + 1) ps [] (by simp) (by simp)]
  rfl

theorem likeMatch_cons_cons (p : Char) (ps : Chars) (c : Char) (s' : Chars) :
    likeMatch (p :: ps) (c :: s') =
      if p = '%' then (likeMatch ps (c :: s') || likeMatch (p :: ps) s')
      else if p = '_' then likeMatch ps s'
      else (decide (p = c) && likeMatch ps s') := by
  have key : likeMatch (p :: ps) (c :: s') =
      if p = '%' then
        (likeMatchAux ((p :: ps).length + (c :: s').length) ps (c :: s') ||
          likeMatchAux ((p :: ps).length + (c :: s').length) (p :: ps) s')
      else if p = '_' then likeMatchAux ((p :: ps).length + (c :: s').length) ps s'
      else (decide (p = c) &&
        likeMatchAux ((p :: ps).length + (c :: s').length) ps s') := rfl
  rw [key,
    likeMatchAux_fuel ((p :: ps).length + (c :: s').length)
      (ps.length + (c :: s').length + 1) ps (c :: s') (by simp) (by simp),
    likeMatchAux_fuel ((p :: ps).length + (c :: s').length)
      ((p :: ps).length + s'.length + 1) (p :: ps) s' (by simp) (by simp),
    likeMatchAux_fuel ((p :: ps).length + (c :: s').length)
      (ps.length + s'.length + 1) ps s' (by simp; omega) (by simp)]
  rfl

/-- A `'%'` in the pattern absorbs any run of leading characters. -/
theorem likeMatch_wild_absorb (t : Chars) : ∀ (ps s : Chars),
    likeMatch ps s = true → likeMatch ('%' :: ps) (t ++ s) = true := by
  induction t with
  | nil =>
    intro ps s h
    rw [List.nil_append]
    cases s with
    | nil =>
      rw [likeMatch_cons_nil, if_pos rfl]
      exact h
    | cons c s' =>
      rw [likeMatch_cons_cons, if_pos rfl, h]
      simp
  | cons d t' ih =>
    intro ps s h
    rw [List.cons_append, likeMatch_cons_cons, if_pos rfl, ih ps s h]
    simp

/-- A pattern `a ++ "%"` matches `a` followed by anything. -/
theorem likeMatch_append_any (a : Chars) : ∀ s : Chars,
    likeMatch (a ++ ['%']) (a ++ s) = true := by
  induction a with
  | nil =>
    intro s
    have h := likeMatch_wild_absorb s [] [] rfl
    rw [List.append_nil] at h
    simpa using h
  | cons c a' ih =>
    intro s
    rw [List.cons_append, List.cons_append, likeMatch_cons_cons]
    by_cases hp : c = '%'
    · rw [if_pos hp]
      subst hp
      have h := likeMatch_wild_absorb [] (a' ++ ['%']) (a' ++ s) (ih s)
      rw [List.nil_append] at h
      rw [h]
      simp
    · rw [if_neg hp]
      by_cases hu : c = '_'
      · rw [if_pos hu]
        exact ih s
      · rw [if_neg hu, ih s]
        simp

/-! ## Lemmas: the next-cluster-name computation -/

theorem maxByIdAux_sorted : ∀ (l : List ClusterRow) (b : ClusterRow),
    List.Pairwise (fun x y : ClusterRow => x.id < y.id) (b :: l) →
    maxByIdAux b l = l.getLastD b := by
  intro l
  induction l with
  | nil => intro b _; rfl
  | cons c rest ih =>
    intro b h
    have hp := List.pairwise_cons.mp h
    have hbc : b.id < c.id := hp.1 c (List.mem_cons_self c rest)
    simp only [maxByIdAux]
    rw [if_pos hbc, ih c hp.2, List.getLastD_cons]

theorem maxById_sorted (b : ClusterRow) (l : List ClusterRow)
    (h : List.Pairwise (fun x y : ClusterRow => x.id < y.id) (b :: l)) :
    maxById (b :: l) = some (l.getLastD b) := by
  simp only [maxById]
  rw [maxByIdAux_sorted l b h]

/-- Every name `pre-#<n>` matches the pattern `pre-%`. -/
theorem mkQsName_matches (pre : Chars) (n : Nat) :
    likeMatch (pre ++ ['-', '%']) (mkQsName pre n) = true := by
  have h := likeMatch_append_any (pre ++ ['-']) ('#' :: natToDigits n)
  rw [List.append_assoc, List.append_assoc] at h
  exact h

/-- Splitting `pre-#<digits>` on `'#'` yields `pre-` and the digits,
provided the prefix itself contains no `'#'`. -/
theorem mkQsName_split (pre : Chars) (n : Nat) (h : '#' ∉ pre) :
    splitOnChar '#' (mkQsName pre n) = [pre ++ ['-'], natToDigits n] := by
  have ha : '#' ∉ pre ++ ['-'] := by
    intro hm
    rcases List.mem_append.mp hm with h1 | h2
    · exact h h1
    · simp at h2
  have hb : '#' ∉ natToDigits n := by
    intro hm
    have hd := natToDigits_all_digits n '#' hm
    simp [isDigitChar] at hd
  have key := splitOnChar_two '#' (pre ++ ['-']) (natToDigits n) ha hb
  rw [List.append_assoc] at key
  exact key

-- Sanity checks (kernel-evaluated):
example : natToDigits 0 = ['0'] := by decide
example : natToDigits 234 = ['2', '3', '4'] := by decide
example : pythonInt "234".data = some 234 := by decide
example : pythonInt "-7".data = some (-7) := by decide
example : pythonInt "".data = none := by decide
example : splitOnChar '#' "ZatoQuickstartCluster-#3".data
    = ["ZatoQuickstartCluster-".data, "3".data] := by decide
example : splitOnChar '#' "abc".data = ["abc".data] := by decide
example : likeMatch "ZatoQuickstartCluster-%".data "ZatoQuickstartCluster-#3".data = true := by
  decide
example : likeMatch "ZatoQuickstartCluster-%".data "ZatoQuickstartCluster-old".data = true := by
  decide
example : likeMatch "ZatoQuickstartCluster-%".data "OtherCluster-#3".data = false := by
  decide
example : nextClusterName [⟨1, "ZatoQuickstartCluster-#3".data⟩] quickstartPre
    = .ok "ZatoQuickstartCluster-#4".data := by decide
example : nextClusterName [] quickstartPre = .ok "ZatoQuickstartCluster-#1".data := by decide
example : (executeRun allOkEnv [] []).outcome = .completed := by decide
example : (executeRun allOkEnv [] []).clusters
    = [⟨1, "ZatoQuickstartCluster-#1".data⟩] := by decide
example : (executeRun allOkEnv [] []).servers
    = [⟨1, "ZatoQuickstartServer-(cluster-#1)".data, some 1⟩] := by decide
example : dirsOf (executeRun envSrvCopyFail [] []).events
    = [caDir, securityServerDir, lbDir, lbConfigDir, serverDir, serverRepoDir] := by decide
example : (executeRun envSrvCopyFail [] []).outcome = .exnCaught := by decide
example : repoCopiesPrepared false (fullEvents ++ [Event.commit]) = true := by decide
example : exitCode (executeRun envSrvCopyFail [] []) = 0 := by decide

/-! ## Claim theorems -/

/-- C1: for every prefix P (itself free of the `#` marker — the only prefix
the source ever uses is `ZatoQuickstartCluster`) and every store holding
exactly the rows `P-#1 … P-#N` in increasing identifier order, the
next-cluster-name computation returns `P-#(N+1)`; for a store with no
clusters matching `P-%` it returns `P-#1`; and with one pre-existing row
`ZatoQuickstartCluster-#3` the new name is `ZatoQuickstartCluster-#4`. -/
theorem c1_next_cluster_name :
    (∀ (pre : Chars) (N : Nat) (f : Nat → Nat), '#' ∉ pre →
      (∀ i j : Nat, i < j → j < N → f i < f j) →
      nextClusterName ((List.range N).map fun i =>
        (⟨f i, mkQsName pre (i + 1)⟩ : ClusterRow)) pre
        = .ok (mkQsName pre (N + 1))) ∧
    (∀ (pre : Chars) (rows : List ClusterRow),
      (∀ r ∈ rows, likeMatch (pre ++ ['-', '%']) r.name = false) →
      nextClusterName rows pre = .ok (mkQsName pre 1)) ∧
    nextClusterName [⟨1, "ZatoQuickstartCluster-#3".data⟩] quickstartPre
      = .ok "ZatoQuickstartCluster-#4".data := by
  refine ⟨?_, ?_, by decide⟩
  · intro pre N f hpre hmono
    have hfilter : likeCandidates ((List.range N).map fun i =>
        (⟨f i, mkQsName pre (i + 1)⟩ : ClusterRow)) pre =
        (List.range N).map fun i => (⟨f i, mkQsName pre (i + 1)⟩ : ClusterRow) := by
      apply List.filter_eq_self.mpr
      intro r hr
      rcases List.mem_map.mp hr with ⟨i, _, hri⟩
      rw [← hri]
      exact mkQsName_matches pre (i + 1)
    cases N with
    | zero =>
      simp only [List.range_zero, List.map_nil]
      rfl
    | succ M =>
      have hpair : List.Pairwise (fun x y : ClusterRow => x.id < y.id)
          ((List.range (M + 1)).map fun i =>
            (⟨f i, mkQsName pre (i + 1)⟩ : ClusterRow)) := by
        rw [List.pairwise_map]
        apply List.pairwise_iff_getElem.mpr
        intro i j hi hj hij
        simp only [List.length_range] at hi hj
        rw [List.getElem_range i, List.getElem_range j]
        exact hmono i j hij hj
      rcases hshape : (List.range (M + 1)).map (fun i =>
          (⟨f i, mkQsName pre (i + 1)⟩ : ClusterRow)) with _ | ⟨r0, t⟩
      · exfalso
        have hlen := congrArg List.length hshape
        simp [List.length_map, List.length_range] at hlen
      · have hlastval : t.getLastD r0 = (⟨f M, mkQsName pre (M + 1)⟩ : ClusterRow) := by
          have h1 : (((List.range (M + 1)).map fun i =>
              (⟨f i, mkQsName pre (i + 1)⟩ : ClusterRow))).getLastD r0 = t.getLastD r0 := by
            rw [hshape, List.getLastD_cons]
          rw [← h1, List.range_succ, List.map_append, List.map_singleton,
            List.getLastD_concat]
        have hnext : nextClusterId ((List.range (M + 1)).map fun i =>
            (⟨f i, mkQsName pre (i + 1)⟩ : ClusterRow)) pre
            = .ok (((M + 1 : Nat) : Int) + 1) := by
          unfold nextClusterId
          rw [hfilter, hshape, maxById_sorted r0 t (hshape ▸ hpair), hlastval]
          simp only [mkQsName_split pre (M + 1) hpre, pythonInt_natToDigits]
        rw [← hshape]
        unfold nextClusterName
        rw [hnext]
        simp only [Except.map]
        have hint : ((M + 1 : Nat) : Int) + 1 = ((M + 2 : Nat) : Int) := by
          push_cast
          ring
        rw [hint]
        rfl
  · intro pre rows h
    have hfilter : likeCandidates rows pre = [] := by
      apply List.filter_eq_nil_iff.mpr
      intro r hr
      simp [h r hr]
    unfold nextClusterName nextClusterId
    rw [hfilter]
    rfl

/-- Witness for C1 at the concrete prefix `ZatoQuickstartCluster`, a store
of two rows `-#1`, `-#2` with identifiers 0 and 1, and the empty store. -/
theorem c1_next_cluster_name_witness :
    ('#' ∉ quickstartPre) ∧
    nextClusterName ((List.range 2).map fun i =>
      (⟨i, mkQsName quickstartPre (i + 1)⟩ : ClusterRow)) quickstartPre
      = .ok (mkQsName quickstartPre 3) ∧
    nextClusterName [⟨7, "OtherCluster-#9".data⟩] quickstartPre
      = .ok (mkQsName quickstartPre 1) :=
  ⟨by decide,
   c1_next_cluster_name.1 quickstartPre 2 (fun i => i) (by decide)
     (fun _ _ h _ => h),
   c1_next_cluster_name.2.1 quickstartPre [⟨7, "OtherCluster-#9".data⟩]
     (by intro r hr; rw [List.mem_singleton] at hr; subst hr; decide)⟩

/-- C2: the candidate row is selected by descending identifier, not by
numeric suffix: in a store where the row with the larger identifier carries
the numerically smaller suffix, the computed next id (3) regresses below
the numeric maximum suffix present (5). -/
theorem c2_descending_id_tiebreak :
    maxById (likeCandidates
      [⟨1, "ZatoQuickstartCluster-#5".data⟩, ⟨2, "ZatoQuickstartCluster-#2".data⟩]
      quickstartPre) = some ⟨2, "ZatoQuickstartCluster-#2".data⟩ ∧
    nextClusterId
      [⟨1, "ZatoQuickstartCluster-#5".data⟩, ⟨2, "ZatoQuickstartCluster-#2".data⟩]
      quickstartPre = .ok 3 ∧
    maxSuffix
      [⟨1, "ZatoQuickstartCluster-#5".data⟩, ⟨2, "ZatoQuickstartCluster-#2".data⟩]
      = some 5 ∧
    (3 : Int) ≤ 5 := by decide

/-- C7 counterexample: the query pattern is `prefix + "-%"`, not
`prefix + "-#%"`, so a cluster whose name starts with the prefix but
carries no `#` marker is *not* excluded: with it as the only (and hence
top) row the suffix parse fails and the computation errors instead of
returning `prefix-#1` as it does on the empty store. -/
theorem c7_counterexample :
    quickstartPre.isPrefixOf "ZatoQuickstartCluster-old".data = true ∧
    '#' ∉ "ZatoQuickstartCluster-old".data ∧
    likeMatch (quickstartPre ++ ['-', '%']) "ZatoQuickstartCluster-old".data = true ∧
    likeCandidates [⟨1, "ZatoQuickstartCluster-old".data⟩] quickstartPre
      = [⟨1, "ZatoQuickstartCluster-old".data⟩] ∧
    nextClusterName [⟨1, "ZatoQuickstartCluster-old".data⟩] quickstartPre
      = .error .valueError ∧
    nextClusterName [] quickstartPre = .ok "ZatoQuickstartCluster-#1".data := by decide

/-- C7 amended: the candidate set is exactly the rows whose name matches
`prefix + "-%"`; a row that does not match that pattern is excluded and
never affects the computed name (rows that match the pattern but lack the
`#` marker can still be selected and then abort the run, per the
counterexample). -/
theorem c7_like_candidates (rows1 rows2 : List ClusterRow) (r : ClusterRow)
    (h : likeMatch (quickstartPre ++ ['-', '%']) r.name = false) :
    nextClusterName (rows1 ++ r :: rows2) quickstartPre
      = nextClusterName (rows1 ++ rows2) quickstartPre := by
  unfold nextClusterName nextClusterId likeCandidates
  simp [List.filter_append, List.filter_cons, h]

/-- Witness for the amended C7: a non-matching row is dropped. -/
theorem c7_like_candidates_witness :
    likeMatch (quickstartPre ++ ['-', '%']) "unrelated".data = false ∧
    nextClusterName ([] ++ (⟨5, "unrelated".data⟩ : ClusterRow) :: []) quickstartPre
      = nextClusterName (([] : List ClusterRow) ++ []) quickstartPre :=
  ⟨by decide, c7_like_candidates [] [] ⟨5, "unrelated".data⟩ (by decide)⟩

/-! ## Lemmas: the step-list executor -/

theorem runList_events_append (l : List (StepOutcome × List Event)) :
    ∃ t, l.flatMap Prod.snd = (runList l).1 ++ t := by
  induction l with
  | nil => exact ⟨[], rfl⟩
  | cons p rest ih =>
    rcases p with ⟨o, evs⟩
    obtain ⟨t, ht⟩ := ih
    rcases hr : runList rest with ⟨evs', ab⟩
    rw [hr] at ht
    cases o with
    | ok =>
      refine ⟨t, ?_⟩
      rw [List.flatMap_cons, ht]
      simp [runList, hr, List.append_assoc]
    | exn =>
      refine ⟨evs ++ rest.flatMap Prod.snd, ?_⟩
      simp [runList, List.flatMap_cons]
    | kbint =>
      refine ⟨evs ++ rest.flatMap Prod.snd, ?_⟩
      simp [runList, List.flatMap_cons]

theorem runList_none_events (l : List (StepOutcome × List Event))
    (h : (runList l).2 = none) : (runList l).1 = l.flatMap Prod.snd := by
  induction l with
  | nil => rfl
  | cons p rest ih =>
    rcases p with ⟨o, evs⟩
    rcases hr : runList rest with ⟨evs', ab⟩
    cases o with
    | ok =>
      have h2 : ab = none := by
        simp only [runList, hr] at h
        exact h
      have h3 : evs' = rest.flatMap Prod.snd := by
        have h4 := ih (by rw [hr]; exact h2)
        rw [hr] at h4
        exact h4
      simp [runList, hr, h3, List.flatMap_cons]
    | exn => simp [runList] at h
    | kbint => simp [runList] at h

/-- The successful-prefix events of any run are the full event list of the
step sequence cut off at the first failure. -/
theorem flatMap_provisioning (env : Env) :
    (provisioningSteps env).flatMap Prod.snd = fullEvents := rfl

theorem runList_allOk : runList (provisioningSteps allOkEnv) = (fullEvents, none) := rfl

theorem runList_commitFail :
    runList (provisioningSteps envCommitFail) = (fullEvents, none) := rfl

theorem runList_srvCopyFail :
    runList (provisioningSteps envSrvCopyFail) = (c3Events, some .exn) := rfl

theorem executeRun_abort (env : Env) (c0 : List ClusterRow) (s0 : List ServerRow)
    (ab : Abort) (h : (runList (provisioningSteps env)).2 = some ab) :
    executeRun env c0 s0 =
      ⟨(runList (provisioningSteps env)).1, c0, s0, abortOutcome ab⟩ := by
  unfold executeRun
  rcases hr : runList (provisioningSteps env) with ⟨evs, ab2⟩
  rw [hr] at h
  have hab : ab2 = some ab := h
  subst hab
  cases ab with
  | exn => rfl
  | kbint => rfl

theorem executeRun_next_error (env : Env) (c0 : List ClusterRow) (s0 : List ServerRow)
    (e : PyError) (h1 : (runList (provisioningSteps env)).2 = none)
    (h2 : nextClusterId c0 quickstartPre = .error e) :
    executeRun env c0 s0 = ⟨fullEvents, c0, s0, .exnCaught⟩ := by
  have hev : (runList (provisioningSteps env)).1 = fullEvents := by
    rw [runList_none_events _ h1]
    rfl
  unfold executeRun
  rcases hr : runList (provisioningSteps env) with ⟨evs, ab⟩
  rw [hr] at h1 hev
  have hab : ab = none := h1
  subst hab
  have hevs : evs = fullEvents := hev
  subst hevs
  rw [h2]

theorem executeRun_commit_ok (env : Env) (c0 : List ClusterRow) (s0 : List ServerRow)
    (nid : Int) (h1 : (runList (provisioningSteps env)).2 = none)
    (h2 : nextClusterId c0 quickstartPre = .ok nid) (h3 : env .commitStep = .ok) :
    executeRun env c0 s0 =
      ⟨fullEvents ++ [.commit],
       c0 ++ [⟨nextPk (c0.map fun r => r.id), clusterNameOf nid⟩],
       s0 ++ [⟨nextPk (s0.map fun r => r.id), serverNameOf nid,
         some (nextPk (c0.map fun r => r.id))⟩],
       .completed⟩ := by
  have hev : (runList (provisioningSteps env)).1 = fullEvents := by
    rw [runList_none_events _ h1]
    rfl
  unfold executeRun
  rcases hr : runList (provisioningSteps env) with ⟨evs, ab⟩
  rw [hr] at h1 hev
  have hab : ab = none := h1
  subst hab
  have hevs : evs = fullEvents := hev
  subst hevs
  rw [h2, h3]

theorem executeRun_commit_exn (env : Env) (c0 : List ClusterRow) (s0 : List ServerRow)
    (nid : Int) (h1 : (runList (provisioningSteps env)).2 = none)
    (h2 : nextClusterId c0 quickstartPre = .ok nid) (h3 : env .commitStep = .exn) :
    executeRun env c0 s0 = ⟨fullEvents, c0, s0, .exnCaught⟩ := by
  have hev : (runList (provisioningSteps env)).1 = fullEvents := by
    rw [runList_none_events _ h1]
    rfl
  unfold executeRun
  rcases hr : runList (provisioningSteps env) with ⟨evs, ab⟩
  rw [hr] at h1 hev
  have hab : ab = none := h1
  subst hab
  have hevs : evs = fullEvents := hev
  subst hevs
  rw [h2, h3]

theorem executeRun_commit_kbint (env : Env) (c0 : List ClusterRow) (s0 : List ServerRow)
    (nid : Int) (h1 : (runList (provisioningSteps env)).2 = none)
    (h2 : nextClusterId c0 quickstartPre = .ok nid) (h3 : env .commitStep = .kbint) :
    executeRun env c0 s0 = ⟨fullEvents, c0, s0, .kbInterrupt⟩ := by
  have hev : (runList (provisioningSteps env)).1 = fullEvents := by
    rw [runList_none_events _ h1]
    rfl
  unfold executeRun
  rcases hr : runList (provisioningSteps env) with ⟨evs, ab⟩
  rw [hr] at h1 hev
  have hab : ab = none := h1
  subst hab
  have hevs : evs = fullEvents := hev
  subst hevs
  rw [h2, h3]

theorem repoCopiesPrepared_append (l1 l2 : List Event) : ∀ seen : Bool,
    repoCopiesPrepared seen (l1 ++ l2) = true → repoCopiesPrepared seen l1 = true := by
  induction l1 with
  | nil => intro seen _; rfl
  | cons e l1' ih =>
    intro seen h
    cases e <;>
      simp only [List.cons_append, repoCopiesPrepared, Bool.and_eq_true] at h ⊢ <;>
      first
      | exact ih _ h
      | exact ⟨h.1, ih _ h.2⟩

theorem pairwise_ne_imp {α β : Type} (f : α → β) (l : List α)
    (h : List.Pairwise (fun a b => f a ≠ f b) l) :
    ∀ a ∈ l, ∀ b ∈ l, f a = f b → a = b := by
  induction l with
  | nil => intro a ha; simp at ha
  | cons x xs ih =>
    intro a ha b hb hf
    have hp := List.pairwise_cons.mp h
    rcases List.mem_cons.mp ha with rfl | ha'
    · rcases List.mem_cons.mp hb with rfl | hb'
      · rfl
      · exact absurd hf (hp.1 b hb')
    · rcases List.mem_cons.mp hb with rfl | hb'
      · exact absurd hf.symm (hp.1 a ha')
      · exact ih hp.2 a ha' b hb' hf

theorem belongsCount_le_one (clusters : List ClusterRow) (s : ServerRow)
    (h : List.Pairwise (fun a b : ClusterRow => a.id ≠ b.id) clusters) :
    belongsCount clusters s ≤ 1 := by
  induction clusters with
  | nil => simp [belongsCount]
  | cons c rest ih =>
    have hp := List.pairwise_cons.mp h
    unfold belongsCount
    rw [List.filter_cons]
    by_cases hc : s.clusterId = some c.id
    · rw [if_pos (by simp [hc])]
      have hrest : rest.filter (fun c2 => decide (s.clusterId = some c2.id)) = [] := by
        apply List.filter_eq_nil_iff.mpr
        intro c2 hc2
        simp only [decide_eq_true_eq]
        intro heq
        rw [hc] at heq
        exact hp.1 c2 hc2 (Option.some.inj heq)
      rw [hrest]
      simp
    · rw [if_neg (by simp [hc])]
      exact ih hp.2

/-- C3 counterexample: when the server-role crypto copy fails (source file
absent), the run aborts with the exception caught, but the admin-console
directory has *not* been created at that point — it is only made after the
server-role copies — so the claim that it "remains on disk" fails. -/
theorem c3_counterexample :
    (executeRun envSrvCopyFail [] []).outcome = .exnCaught ∧
    zatoAdminDir ∉ dirsOf (executeRun envSrvCopyFail [] []).events ∧
    securityServerDir ∈ dirsOf (executeRun envSrvCopyFail [] []).events := by decide

/-- C3 amended: if the crypto artifact copy for the server role fails, the
run aborts; no Cluster and no Server row is created; the `ca`,
`security-server`, `load-balancer` (with its config subtree) and `server`
(with its repo subtree) directories created in earlier steps remain on
disk, together with the security-server and load-balancer copies already
made; the admin-console directory has not yet been created. -/
theorem c3_server_copy_failure (c0 : List ClusterRow) (s0 : List ServerRow) :
    (executeRun envSrvCopyFail c0 s0).outcome = .exnCaught ∧
    (executeRun envSrvCopyFail c0 s0).clusters = c0 ∧
    (executeRun envSrvCopyFail c0 s0).servers = s0 ∧
    dirsOf (executeRun envSrvCopyFail c0 s0).events
      = [caDir, securityServerDir, lbDir, lbConfigDir, serverDir, serverRepoDir] ∧
    zatoAdminDir ∉ dirsOf (executeRun envSrvCopyFail c0 s0).events ∧
    filesOf (executeRun envSrvCopyFail c0 s0).events
      = ["security-server/security-server-priv-key.pem".data,
         "security-server/security-server-cert.pem".data,
         "security-server/ca-chain.pem".data,
         "load-balancer/config/lba-priv-key.pem".data,
         "load-balancer/config/lba-cert.pem".data,
         "load-balancer/config/ca-chain.pem".data] := by
  have hx := executeRun_abort envSrvCopyFail c0 s0 .exn (by rw [runList_srvCopyFail])
  rw [runList_srvCopyFail] at hx
  rw [hx]
  refine ⟨rfl, rfl, rfl, ?_, ?_, ?_⟩
  · show dirsOf c3Events
      = [caDir, securityServerDir, lbDir, lbConfigDir, serverDir, serverRepoDir]
    decide
  · show zatoAdminDir ∉ dirsOf c3Events
    decide
  · show filesOf c3Events
      = ["security-server/security-server-priv-key.pem".data,
         "security-server/security-server-cert.pem".data,
         "security-server/ca-chain.pem".data,
         "load-balancer/config/lba-priv-key.pem".data,
         "load-balancer/config/lba-cert.pem".data,
         "load-balancer/config/ca-chain.pem".data]
    decide

/-- C4: the database liveness probe is the first event of every run — no
other provisioning step precedes it — and if the probe raises, the run
aborts with no directory or file created and the database untouched. -/
theorem c4_ping_first (env : Env) (c0 : List ClusterRow) (s0 : List ServerRow) :
    ((executeRun env c0 s0).events = [] ∨
      (executeRun env c0 s0).events.head? = some Event.ping) ∧
    (env .ping ≠ .ok →
      (executeRun env c0 s0).events = [] ∧
      (executeRun env c0 s0).clusters = c0 ∧
      (executeRun env c0 s0).servers = s0 ∧
      (executeRun env c0 s0).outcome ≠ .completed) := by
  constructor
  · obtain ⟨t, ht⟩ := runList_events_append (provisioningSteps env)
    rw [flatMap_provisioning env] at ht
    rcases hab : (runList (provisioningSteps env)).2 with _ | a
    · have hevs : (runList (provisioningSteps env)).1 = fullEvents := by
        rw [runList_none_events _ hab]
        rfl
      rcases hn : nextClusterId c0 quickstartPre with e | nid
      · rw [executeRun_next_error env c0 s0 e hab hn]
        exact Or.inr rfl
      · rcases hc : env .commitStep with _ | _ | _
        · rw [executeRun_commit_ok env c0 s0 nid hab hn hc]
          exact Or.inr rfl
        · rw [executeRun_commit_exn env c0 s0 nid hab hn hc]
          exact Or.inr rfl
        · rw [executeRun_commit_kbint env c0 s0 nid hab hn hc]
          exact Or.inr rfl
    · rw [executeRun_abort env c0 s0 a hab]
      rcases hevs : (runList (provisioningSteps env)).1 with _ | ⟨e, evs'⟩
      · exact Or.inl rfl
      · right
        rw [hevs] at ht
        have hhead : fullEvents.head? = some e := by
          rw [ht, List.cons_append]
          rfl
        have he : e = Event.ping := by
          have : some Event.ping = some e := hhead
          exact (Option.some.inj this).symm
        simp [he]
  · intro h
    have key : ∃ ab, runList (provisioningSteps env) = ([], some ab) := by
      rcases hg : env .getEngine with _ | _ | _
      · rcases hp : env .ping with _ | _ | _
        · exact absurd hp h
        · exact ⟨.exn, by simp [provisioningSteps, runList, hg, hp]⟩
        · exact ⟨.kbint, by simp [provisioningSteps, runList, hg, hp]⟩
      · exact ⟨.exn, by simp [provisioningSteps, runList, hg]⟩
      · exact ⟨.kbint, by simp [provisioningSteps, runList, hg]⟩
    obtain ⟨ab, hab⟩ := key
    have hx := executeRun_abort env c0 s0 ab (by rw [hab])
    rw [hab] at hx
    rw [hx]
    refine ⟨rfl, rfl, rfl, ?_⟩
    cases ab <;> simp [abortOutcome]

/-- Witness for C4: with every step raising an exception, the run performs
no event and creates nothing. -/
theorem c4_ping_first_witness :
    (executeRun (fun _ => .exn) [] []).events = [] ∧
    (executeRun (fun _ => .exn) [] []).clusters = [] ∧
    (executeRun (fun _ => .exn) [] []).servers = [] ∧
    (executeRun (fun _ => .exn) [] []).outcome ≠ .completed :=
  (c4_ping_first (fun _ => .exn) [] []).2 (by decide)

/-- C5: the Cluster and Server inserts commit together: if the single
commit raises, the stored tables are unchanged while every filesystem
event already performed remains; if it succeeds, both rows are appended
as one unit, the Server referencing the new Cluster. -/
theorem c5_transactional_registration (c0 : List ClusterRow) (s0 : List ServerRow)
    (nid : Int) (h : nextClusterId c0 quickstartPre = .ok nid) :
    executeRun envCommitFail c0 s0 = ⟨fullEvents, c0, s0, .exnCaught⟩ ∧
    executeRun allOkEnv c0 s0 =
      ⟨fullEvents ++ [.commit],
       c0 ++ [⟨nextPk (c0.map fun r => r.id), clusterNameOf nid⟩],
       s0 ++ [⟨nextPk (s0.map fun r => r.id), serverNameOf nid,
         some (nextPk (c0.map fun r => r.id))⟩],
       .completed⟩ :=
  ⟨executeRun_commit_exn envCommitFail c0 s0 nid (by rw [runList_commitFail]) h rfl,
   executeRun_commit_ok allOkEnv c0 s0 nid (by rw [runList_allOk]) h rfl⟩

/-- Witness for C5 on the empty store. -/
theorem c5_transactional_registration_witness :
    nextClusterId [] quickstartPre = .ok 1 ∧
    executeRun envCommitFail [] [] = ⟨fullEvents, [], [], .exnCaught⟩ :=
  ⟨by decide, (c5_transactional_registration [] [] 1 (by decide)).1⟩

/-- C6 (scenario A): from an empty target, a reachable database, and a
store with no quickstart clusters, the run completes, creates the five
role directories (each exactly once, plus the two nested config subtrees),
and registers one Cluster row named `ZatoQuickstartCluster-#1` and one
Server row named `ZatoQuickstartServer-(cluster-#1)` referencing it. -/
theorem c6_scenario_a (c0 : List ClusterRow) (s0 : List ServerRow)
    (h : ∀ r ∈ c0, likeMatch (quickstartPre ++ ['-', '%']) r.name = false) :
    (executeRun allOkEnv c0 s0).outcome = .completed ∧
    dirsOf (executeRun allOkEnv c0 s0).events
      = [caDir, securityServerDir, lbDir, lbConfigDir, serverDir, serverRepoDir,
         zatoAdminDir] ∧
    (∀ d ∈ roleDirs, (dirsOf (executeRun allOkEnv c0 s0).events).count d = 1) ∧
    (executeRun allOkEnv c0 s0).clusters
      = c0 ++ [⟨nextPk (c0.map fun r => r.id), "ZatoQuickstartCluster-#1".data⟩] ∧
    (executeRun allOkEnv c0 s0).servers
      = s0 ++ [⟨nextPk (s0.map fun r => r.id), "ZatoQuickstartServer-(cluster-#1)".data,
          some (nextPk (c0.map fun r => r.id))⟩] := by
  have hnext : nextClusterId c0 quickstartPre = .ok 1 := by
    have hfilter : likeCandidates c0 quickstartPre = [] := by
      apply List.filter_eq_nil_iff.mpr
      intro r hr
      simp [h r hr]
    unfold nextClusterId
    rw [hfilter]
    rfl
  have hexec := executeRun_commit_ok allOkEnv c0 s0 1 (by rw [runList_allOk]) hnext rfl
  rw [hexec]
  refine ⟨rfl, ?_, ?_, ?_, ?_⟩
  · show dirsOf (fullEvents ++ [.commit])
      = [caDir, securityServerDir, lbDir, lbConfigDir, serverDir, serverRepoDir,
         zatoAdminDir]
    decide
  · show ∀ d ∈ roleDirs, (dirsOf (fullEvents ++ [.commit])).count d = 1
    decide
  · have hname : clusterNameOf 1 = "ZatoQuickstartCluster-#1".data := by decide
    rw [hname]
  · have hname : serverNameOf 1 = "ZatoQuickstartServer-(cluster-#1)".data := by decide
    rw [hname]

/-- Witness for C6 on the empty store. -/
theorem c6_scenario_a_witness :
    (executeRun allOkEnv [] []).outcome = .completed ∧
    (executeRun allOkEnv [] []).clusters
      = [] ++ [⟨nextPk (([] : List ClusterRow).map fun r => r.id),
          "ZatoQuickstartCluster-#1".data⟩] :=
  ⟨(c6_scenario_a [] [] (by intro r hr; simp at hr)).1,
   (c6_scenario_a [] [] (by intro r hr; simp at hr)).2.2.2.1⟩

/-- C8: in every run, whatever the environment makes each step do, every
copy whose destination lies inside `server/config/repo` happens after the
`mkdir` of that subtree (`prepare_directories` precedes the server-role
crypto copies). -/
theorem c8_prepare_before_repo_copies (env : Env) (c0 : List ClusterRow)
    (s0 : List ServerRow) :
    repoCopiesPrepared false (executeRun env c0 s0).events = true := by
  have hcheck : repoCopiesPrepared false (fullEvents ++ [Event.commit]) = true := by decide
  have hpre : ∀ evs t, fullEvents ++ [Event.commit] = evs ++ t →
      repoCopiesPrepared false evs = true := by
    intro evs t hh
    exact repoCopiesPrepared_append evs t false (hh ▸ hcheck)
  obtain ⟨t, ht⟩ := runList_events_append (provisioningSteps env)
  rw [flatMap_provisioning env] at ht
  rcases hab : (runList (provisioningSteps env)).2 with _ | a
  · rcases hn : nextClusterId c0 quickstartPre with e | nid
    · rw [executeRun_next_error env c0 s0 e hab hn]
      exact hpre fullEvents [Event.commit] rfl
    · rcases hc : env .commitStep with _ | _ | _
      · rw [executeRun_commit_ok env c0 s0 nid hab hn hc]
        exact hcheck
      · rw [executeRun_commit_exn env c0 s0 nid hab hn hc]
        exact hpre fullEvents [Event.commit] rfl
      · rw [executeRun_commit_kbint env c0 s0 nid hab hn hc]
        exact hpre fullEvents [Event.commit] rfl
  · rw [executeRun_abort env c0 s0 a hab]
    exact hpre (runList (provisioningSteps env)).1 (t ++ [Event.commit])
      (by rw [← List.append_assoc, ← ht])

/-- C9 counterexample: the `server` table's foreign key is declared
`nullable=True`, so a row satisfying every declared constraint may belong
to *no* cluster — "belongs to exactly one Cluster" is not enforced by the
schema. -/
theorem c9_counterexample :
    clusterConstraints [] ∧
    serverConstraints [] [⟨1, "orphan".data, none⟩] ∧
    belongsCount [] ⟨1, "orphan".data, none⟩ = 0 := by
  refine ⟨⟨?_, ?_⟩, ⟨?_, ?_, ?_⟩, rfl⟩ <;> decide

/-- C9 amended: under the declared constraints a Server belongs to *at
most* one Cluster through its foreign key, to exactly one whenever the
(nullable) key is actually set, and `Server.name` uniqueness is global —
two servers with equal names are the same row even across clusters. -/
theorem c9_server_schema (clusters : List ClusterRow) (servers : List ServerRow)
    (hc : clusterConstraints clusters) (hs : serverConstraints clusters servers) :
    (∀ s ∈ servers, belongsCount clusters s ≤ 1) ∧
    (∀ s ∈ servers, ∀ cid, s.clusterId = some cid → belongsCount clusters s = 1) ∧
    (∀ s1 ∈ servers, ∀ s2 ∈ servers, s1.name = s2.name → s1 = s2) := by
  refine ⟨fun s _ => belongsCount_le_one clusters s hc.1, ?_, ?_⟩
  · intro s hsm cid hcid
    have hle := belongsCount_le_one clusters s hc.1
    rcases hs.2.2 s hsm with hnone | ⟨c, hcm, heq⟩
    · rw [hcid] at hnone
      exact absurd hnone (by simp)
    · have hmem : c ∈ clusters.filter (fun c2 => decide (s.clusterId = some c2.id)) :=
        List.mem_filter.mpr ⟨hcm, by simp [heq]⟩
      have hpos : 0 < belongsCount clusters s := by
        unfold belongsCount
        exact List.length_pos.mpr (List.ne_nil_of_mem hmem)
      omega
  · intro s1 h1 s2 h2 hname
    exact pairwise_ne_imp (fun s : ServerRow => s.name) servers hs.2.1 s1 h1 s2 h2 hname

/-- Witness for the amended C9 on a one-cluster, one-server store. -/
theorem c9_server_schema_witness :
    clusterConstraints [⟨1, "c".data⟩] ∧
    serverConstraints [⟨1, "c".data⟩] [⟨1, "s".data, some 1⟩] ∧
    belongsCount [⟨1, "c".data⟩] ⟨1, "s".data, some 1⟩ ≤ 1 := by
  have h1 : clusterConstraints [⟨1, "c".data⟩] := by
    constructor <;> decide
  have h2 : serverConstraints [⟨1, "c".data⟩] [⟨1, "s".data, some 1⟩] := by
    refine ⟨?_, ?_, ?_⟩ <;> decide
  exact ⟨h1, h2, (c9_server_schema _ _ h1 h2).1 _ (by simp)⟩

/-- C10: the process exits with status 1 exactly when the body raised
`KeyboardInterrupt` (either in a provisioning step or at the commit); any
ordinary exception is caught by the top-level handler, which falls through
to a normal exit with status 0 even though the bootstrap failed. -/
theorem c10_exit_status (env : Env) (c0 : List ClusterRow) (s0 : List ServerRow) :
    (exitCode (executeRun env c0 s0) = 1 ↔
      (executeRun env c0 s0).outcome = .kbInterrupt) ∧
    ((executeRun env c0 s0).outcome = .kbInterrupt ↔ kbCond env c0) := by
  constructor
  · cases ho : (executeRun env c0 s0).outcome <;> simp [exitCode, ho]
  · rcases hab : (runList (provisioningSteps env)).2 with _ | a
    · rcases hn : nextClusterId c0 quickstartPre with e | nid
      · rw [executeRun_next_error env c0 s0 e hab hn]
        simp [kbCond, hab, hn, exceptOk]
      · rcases hc : env .commitStep with _ | _ | _
        · rw [executeRun_commit_ok env c0 s0 nid hab hn hc]
          simp [kbCond, hab, hn, hc, exceptOk]
        · rw [executeRun_commit_exn env c0 s0 nid hab hn hc]
          simp [kbCond, hab, hn, hc, exceptOk]
        · rw [executeRun_commit_kbint env c0 s0 nid hab hn hc]
          simp [kbCond, hab, hn, hc, exceptOk]
    · rw [executeRun_abort env c0 s0 a hab]
      cases a <;> simp [kbCond, hab, abortOutcome]
